import Mathlib

/-!
Verification of the hyperspec repository's specification against its code.

The repository ships three Python files: a benchmark driver
(`benchmarks/bench_msgspec_vs_hyperspec.py`), a GeoJSON example
(`examples/geojson/hyperspec_geojson.py`) and a release helper
(`scripts/release_github.py`).  The serialization core itself (Struct,
convert, the JSON codec) is not part of the repository, so its behaviour
is modelled from the specification where a claim depends on it.

Python floats are modelled as rationals (`ℚ`); the float NaN produced by
`_pct` on a zero base is modelled as `none` of an `Option ℚ`.
-/

namespace Hyperspec

/- ### Benchmark driver: `benchmarks/bench_msgspec_vs_hyperspec.py` -/

/-- Embedding of `_pct` (lines 27-30).  `float("nan")` is modelled as
`none`; every other result is `some (100.0 * (delta / base))`. -/
def pct (delta base : ℚ) : Option ℚ :=
  if base = 0 then none else some (100 * (delta / base))

/-- Embedding of `_classify_regression` (lines 33-43). -/
def classifyRegression (p : ℚ) : String :=
  if p ≤ 0 then "hyperspec faster"
  else if p ≤ 1 then "within 1%"
  else if p ≤ 5 then "within 5%"
  else if p ≤ 10 then "within 10%"
  else "more than 10%"

/-- Insert a rational into a sorted list (helper for the sort used to model
`statistics.median`). -/
def insertSorted (x : ℚ) : List ℚ → List ℚ
  | [] => [x]
  | y :: ys => if x ≤ y then x :: y :: ys else y :: insertSorted x ys

/-- Insertion sort, modelling Python's `sorted` on a list of floats. -/
def sortQ : List ℚ → List ℚ
  | [] => []
  | x :: xs => insertSorted x (sortQ xs)

/-- Embedding of Python's `statistics.median`: sort the data, take the middle
element for odd length, the mean of the two middle elements for even length.
(`statistics.median` raises on an empty list; `main` only calls it on lists of
length `runs ≥ 1`, and this model returns the junk value 0 there.) -/
def medianQ (xs : List ℚ) : ℚ :=
  let s := sortQ xs
  let n := s.length
  if n % 2 = 1 then s.getD (n / 2) 0
  else (s.getD (n / 2 - 1) 0 + s.getD (n / 2) 0) / 2

/-- Python's `p > 1.0` on a float that may be NaN: NaN compares false. -/
def pctExceedsOne : Option ℚ → Bool
  | none => false
  | some p => decide (1 < p)

/-- The FAIL line printed by `main` (line 253). -/
def failLine : String := "FAIL: hyperspec regression > 1% (unacceptable)."

/-- The PASS line printed by `main` (line 255). -/
def passLine : String := "PASS: hyperspec within 1% for both instantiation and validation."

/-- A process outcome of the benchmark: the decision-relevant lines printed
and the value returned by `main` (the process exit status). -/
structure BenchReport where
  printed : List String
  exitCode : Nat
deriving DecidableEq

/-- Embedding of the tail of `main` (lines 229-256): compute the median
instantiation and validation timings of both libraries over the per-run
timing lists, form the regression percentages via `_pct`, and fail with
exit status 1 iff either percentage exceeds 1.0.  The summary lines that do
not affect the verdict are not modelled. -/
def benchVerdict (msgInst hypInst msgVal hypVal : List ℚ) : BenchReport :=
  let instPct := pct (medianQ hypInst - medianQ msgInst) (medianQ msgInst)
  let valPct := pct (medianQ hypVal - medianQ msgVal) (medianQ msgVal)
  if pctExceedsOne instPct || pctExceedsOne valPct then
    { printed := [failLine], exitCode := 1 }
  else
    { printed := [passLine], exitCode := 0 }

/-- Embedding of `runs = max(1, min(args.runs, 10))` (line 195). -/
def clampedRuns (r : Int) : Int := max 1 (min r 10)

/-- Embedding of `warmup = max(0, args.warmup)` (line 196). -/
def clampedWarmup (w : Int) : Int := max 0 w

/-- Number of measured benchmark iterations executed by the
`for i in range(runs)` loop of `main` (line 212). -/
def measuredRunCount (r : Int) : Nat := (List.range (clampedRuns r).toNat).length

/-- Number of warmup iterations executed by the `for _ in range(warmup)`
loop of `main` (line 205). -/
def warmupRunCount (w : Int) : Nat := (List.range (clampedWarmup w).toNat).length

/- ### Release helper: `scripts/release_github.py` -/

/-- The left brace character, `\x7b`. -/
def braceL : Char := Char.ofNat 123

/-- The right brace character, `\x7d`. -/
def braceR : Char := Char.ofNat 125

/-- The backquote character, `\x60`. -/
def btick : Char := Char.ofNat 96

/-- The codepoint ranges (inclusive) of the characters matched by Python's
`\s` for str patterns; CPython's `re` uses the same set as `str.isspace()`
and `str.strip()`: the six ASCII whitespace characters, the bidirectional
separators U+001C-U+001F, NEL, NBSP, and the Unicode space separators. -/
def wsRanges : List (Nat × Nat) :=
  [(9, 13), (28, 32), (133, 133), (160, 160), (5760, 5760), (8192, 8202),
    (8232, 8233), (8239, 8239), (8287, 8287), (12288, 12288)]

/-- Python's whitespace class: the characters matched by the regex class
`\s`, which coincide with those for which `str.isspace()` holds and which
`str.strip()` removes. -/
def isPyWs (c : Char) : Bool :=
  wsRanges.any (fun r => r.1 ≤ c.toNat && c.toNat ≤ r.2)

/-- The codepoint ranges (inclusive) of the characters matched by Python's
`\d` for str patterns: the Unicode decimal digits (category Nd), as in
CPython's `re` / `unicodedata`. -/
def ndRanges : List (Nat × Nat) :=
  [(48, 57), (1632, 1641), (1776, 1785), (1984, 1993), (2406, 2415), (2534, 2543),
    (2662, 2671), (2790, 2799), (2918, 2927), (3046, 3055), (3174, 3183),
    (3302, 3311), (3430, 3439), (3558, 3567), (3664, 3673), (3792, 3801),
    (3872, 3881), (4160, 4169), (4240, 4249), (6112, 6121), (6160, 6169),
    (6470, 6479), (6608, 6617), (6784, 6793), (6800, 6809), (6992, 7001),
    (7088, 7097), (7232, 7241), (7248, 7257), (42528, 42537), (43216, 43225),
    (43264, 43273), (43472, 43481), (43504, 43513), (43600, 43609),
    (44016, 44025), (65296, 65305), (66720, 66729), (68912, 68921),
    (69734, 69743), (69872, 69881), (69942, 69951), (70096, 70105),
    (70384, 70393), (70736, 70745), (70864, 70873), (71248, 71257),
    (71360, 71369), (71472, 71481), (71904, 71913), (72016, 72025),
    (72784, 72793), (73040, 73049), (73120, 73129), (92768, 92777),
    (92864, 92873), (93008, 93017), (120782, 120831), (123200, 123209),
    (123632, 123641), (125264, 125273), (130032, 130041)]

/-- Python's `\d` class for str patterns: the Unicode decimal digits. -/
def isPyDigit (c : Char) : Bool :=
  ndRanges.any (fun r => r.1 ≤ c.toNat && c.toNat ≤ r.2)

/-- The newline test used by `[^\n]`, by the `\n` literal, and by the
MULTILINE `^` anchor. -/
def isNl (c : Char) : Bool := c == '\n'

/-- Match a literal at the head of the text, returning the remainder. -/
def dropLit : List Char → List Char → Option (List Char)
  | [], cs => some cs
  | _ :: _, [] => none
  | p :: ps, c :: cs => if c = p then dropLit ps cs else none

/-- Match `\s+` at the head of the text: require at least one whitespace
character (possibly a newline) and consume the maximal run.  In the heading
pattern every `\s+` is followed by a non-whitespace requirement, so greedy
matching without backtracking is faithful. -/
def dropWs1 (cs : List Char) : Option (List Char) :=
  match cs with
  | c :: rest => if isPyWs c then some (rest.dropWhile isPyWs) else none
  | [] => none

/-- Match of `##\s+Version\s+(?P<version>\S+)[^\n]*\n+` (the heading part
of the `main` regex, line 12 of `scripts/release_github.py`) at one
position of the changelog.  Whitespace may span newlines, exactly as in the
`re` engine.  Returns the captured version and the text after the first
newline of the `\n+` run; the remaining newlines are leading characters of
the lazy `notes` capture and are removed by the final `strip`.  `\S+`
cannot contain a newline and `[^\n]*` always extends to the same first
newline, so backtracking cannot produce any other outcome. -/
def matchHeadingAt (cs : List Char) : Option (List Char × List Char) :=
  match dropLit ['#', '#'] cs with
  | none => none
  | some cs1 =>
    match dropWs1 cs1 with
    | none => none
    | some cs2 =>
      match dropLit "Version".data cs2 with
      | none => none
      | some cs3 =>
        match dropWs1 cs3 with
        | none => none
        | some cs4 =>
          match cs4.takeWhile (fun c => !isPyWs c) with
          | [] => none
          | v =>
            match (cs4.dropWhile (fun c => !isPyWs c)).dropWhile (fun c => !isNl c) with
            | '\n' :: rest => some (v, rest)
            | _ => none

/-- Match of the lookahead pattern `##\s+Version` (from
`(?=^##\s+Version|\Z)`) at one position; no version token is required, and
the whitespace may span newlines. -/
def matchBoundaryAt (cs : List Char) : Bool :=
  match dropLit ['#', '#'] cs with
  | none => false
  | some cs1 =>
    match dropWs1 cs1 with
    | none => false
    | some cs2 => (dropLit "Version".data cs2).isSome

/-- `re.search` of the heading pattern under `re.MULTILINE`: positions are
tried left to right, and the `^` anchor admits exactly the start of the
text and every position directly after a newline.  Fuel-indexed for
structural termination; fuel `length + 1` never exhausts. -/
def searchHeadingF : Nat → List Char → Option (List Char × List Char)
  | 0, _ => none
  | fuel + 1, cs =>
    match matchHeadingAt cs with
    | some r => some r
    | none =>
      match cs.dropWhile (fun c => !isNl c) with
      | _ :: rest => searchHeadingF fuel rest
      | [] => none

/-- The first position (leftmost, at a line start) where the heading
pattern matches, as found by `re.search`. -/
def searchHeading (cs : List Char) : Option (List Char × List Char) :=
  searchHeadingF (cs.length + 1) cs

/-- The lazy `(?P<notes>.*?)(?=^##\s+Version|\Z)` capture: under
`re.DOTALL` the notes extend up to the first line start at which the
boundary pattern matches, or to the end of the text. -/
def takeNotesF : Nat → List Char → List Char
  | 0, _ => []
  | fuel + 1, cs =>
    if matchBoundaryAt cs then []
    else
      match cs.dropWhile (fun c => !isNl c) with
      | _ :: rest => cs.takeWhile (fun c => !isNl c) ++ '\n' :: takeNotesF fuel rest
      | [] => cs

/-- The notes capture, starting at a line start; fuel `length + 1` never
exhausts. -/
def takeNotes (cs : List Char) : List Char := takeNotesF (cs.length + 1) cs

/-- A prefix of the text ending at a MULTILINE `^` anchor position: the
empty prefix (start of text) or a prefix ending with a newline. -/
def lineStart (pre : List Char) : Prop := pre = [] ∨ pre.getLast? = some '\n'

/-- Python `str.strip()`: remove leading and trailing whitespace. -/
def stripChars (cs : List Char) : List Char :=
  ((cs.dropWhile isPyWs).reverse.dropWhile isPyWs).reverse

/-- The `re.search` of `main` (lines 11-15): the version captured by the
leftmost match of the heading pattern, and the stripped notes running up to
the next heading boundary or the end of the text. -/
def extractFirstVersionSection (changelog : List Char) :
    Option (List Char × List Char) :=
  match searchHeading changelog with
  | none => none
  | some (v, rest) => some (v, stripChars (takeNotes rest))

/-- Match the pattern `\{pr\}` + backquote + `(\d+)` + backquote (the
`re.sub` pattern of line 26) at the head of a character list, returning the
captured digits — Unicode decimal digits, per Python's `\d` — and the
remainder.  The digit class excludes the closing backquote, so the greedy
`\d+` needs no backtracking. -/
def matchPrRef (cs : List Char) : Option (List Char × List Char) :=
  match cs with
  | a :: b :: c :: d :: e :: rest =>
    if a = braceL ∧ b = 'p' ∧ c = 'r' ∧ d = braceR ∧ e = btick then
      let digits := rest.takeWhile isPyDigit
      let rest2 := rest.dropWhile isPyDigit
      if digits.isEmpty then none
      else
        match rest2 with
        | f :: rest3 => if f = btick then some (digits, rest3) else none
        | [] => none
    else none
  | _ => none

/-- Left-to-right, non-overlapping rewriting of every `\{pr\}`－backquote
reference to `#<digits>`, fuel-indexed for structural termination; the fuel
never runs out when it starts at the length of the input. -/
def prSubF : Nat → List Char → List Char
  | 0, cs => cs
  | _ + 1, [] => []
  | fuel + 1, c :: rest =>
    match matchPrRef (c :: rest) with
    | some (digits, rest2) => '#' :: (digits ++ prSubF fuel rest2)
    | none => c :: prSubF fuel rest

/-- The `re.sub(r"\{pr\}...", r"#\1", notes)` of `main` (line 26). -/
def prSub (cs : List Char) : List Char := prSubF cs.length cs

/-- The externally visible effect of `main` of `scripts/release_github.py`:
either a browser tab is opened on the release page with the given query
parameters, or a `RuntimeError` with the given message is raised (and no
tab is opened). -/
structure ReleaseAction where
  browserParams : Option (List (List Char × List Char))
  raisedError : Option (List Char)
deriving DecidableEq

/-- Embedding of `main` of `scripts/release_github.py` (lines 7-31) given
the changelog text and its path: parse the first version section; on
failure raise `RuntimeError` naming the path; on success open the release
page with title `Version <v>`, tag `<v>`, and the pr-substituted notes as
body. -/
def releaseMain (changelog changelogPath : List Char) : ReleaseAction :=
  match extractFirstVersionSection changelog with
  | none =>
    { browserParams := none
      raisedError := some ("Unable to parse changelog at ".data ++ changelogPath) }
  | some (v, notes) =>
    { browserParams := some
        [("title".data, "Version ".data ++ v), ("tag".data, v), ("body".data, prSub notes)]
      raisedError := none }

/- ### GeoJSON example: `examples/geojson/hyperspec_geojson.py`, and the
serialization core it exercises.  The core (Struct runtime, convert, JSON
codec) is not part of this repository; its behaviour is modelled from the
specification (§3, §4.3-§4.7, §6) below. -/

/-- Modelled from the spec: the JSON wire values of §6 (objects, arrays,
strings, numbers, booleans, null).  The byte-level tokenizer of §4.6 is
abstracted away: a decoded JSON value tree stands for its UTF-8 byte
serialization, and numbers are exact rationals standing for the numeric
literals. -/
inductive Json where
  | null
  | bool (b : Bool)
  | num (q : ℚ)
  | str (s : String)
  | arr (items : List Json)
  | obj (fields : List (String × Json))

/-- `Position = tuple[float, float]` (example line 5). -/
abbrev Position : Type := ℚ × ℚ

/-- The seven standard Geometry record types of the example (lines 11-47),
all tagged, with `GeometryCollection` self-referential through its
`geometries` field. -/
inductive Geometry where
  | point (coordinates : Position)
  | multiPoint (coordinates : List Position)
  | lineString (coordinates : List Position)
  | multiLineString (coordinates : List (List Position))
  | polygon (coordinates : List (List Position))
  | multiPolygon (coordinates : List (List (List Position)))
  | geometryCollection (geometries : List Geometry)

/-- The `Feature` record type of the example (lines 51-54): three optional
fields defaulting to `None`; `properties` is a generic JSON object and `id`
is `str | int | None`. -/
structure Feature where
  geometry : Option Geometry := none
  properties : Option (List (String × Json)) := none
  id : Option (String ⊕ Int) := none

/-- The nine-member `GeoJSON` union of the example (line 62):
`Geometry | Feature | FeatureCollection`. -/
inductive GeoJSONValue where
  | geom (g : Geometry)
  | feature (f : Feature)
  | featureCollection (features : List Feature)

/-- The schema identities of the seven Geometry union members. -/
inductive GeometryTag where
  | pointT
  | multiPointT
  | lineStringT
  | multiLineStringT
  | polygonT
  | multiPolygonT
  | geometryCollectionT
deriving DecidableEq

/-- The schema identities of the nine GeoJSON union members. -/
inductive GeoJSONTag where
  | geomT (t : GeometryTag)
  | featureT
  | featureCollectionT
deriving DecidableEq

/-- Modelled from the spec: the UnionTable of §4.3 for the `Geometry`
union — discriminant value (the declared type name, per §6 tag convention)
to member schema. -/
def geometryTable : List (String × GeometryTag) :=
  [("Point", .pointT), ("MultiPoint", .multiPointT), ("LineString", .lineStringT),
    ("MultiLineString", .multiLineStringT), ("Polygon", .polygonT),
    ("MultiPolygon", .multiPolygonT), ("GeometryCollection", .geometryCollectionT)]

/-- Modelled from the spec: the UnionTable of §4.3 for the nine-member
`GeoJSON` union. -/
def geoJSONTable : List (String × GeoJSONTag) :=
  [("Point", .geomT .pointT), ("MultiPoint", .geomT .multiPointT),
    ("LineString", .geomT .lineStringT), ("MultiLineString", .geomT .multiLineStringT),
    ("Polygon", .geomT .polygonT), ("MultiPolygon", .geomT .multiPolygonT),
    ("GeometryCollection", .geomT .geometryCollectionT),
    ("Feature", .featureT), ("FeatureCollection", .featureCollectionT)]

/-- Modelled from the spec: `resolve(discriminant_value)` of §4.3 — lookup
of a discriminant value in a UnionTable. -/
def resolveTag (table : List (String × α)) (t : String) : Option α :=
  match table with
  | [] => none
  | (k, v) :: rest => if k = t then some v else resolveTag rest t

/-- The union member a decoded GeoJSON value belongs to. -/
def geometryTagOf : Geometry → GeometryTag
  | .point _ => .pointT
  | .multiPoint _ => .multiPointT
  | .lineString _ => .lineStringT
  | .multiLineString _ => .multiLineStringT
  | .polygon _ => .polygonT
  | .multiPolygon _ => .multiPolygonT
  | .geometryCollection _ => .geometryCollectionT

/-- The union member a decoded GeoJSON value belongs to. -/
def geoJSONTagOf : GeoJSONValue → GeoJSONTag
  | .geom g => .geomT (geometryTagOf g)
  | .feature _ => .featureT
  | .featureCollection _ => .featureCollectionT

/-- The declared name of each union member (example lines 11-59), which is
its discriminant value under the default tag convention. -/
def tagNameOf : GeoJSONTag → String
  | .geomT .pointT => "Point"
  | .geomT .multiPointT => "MultiPoint"
  | .geomT .lineStringT => "LineString"
  | .geomT .multiLineStringT => "MultiLineString"
  | .geomT .polygonT => "Polygon"
  | .geomT .multiPolygonT => "MultiPolygon"
  | .geomT .geometryCollectionT => "GeometryCollection"
  | .featureT => "Feature"
  | .featureCollectionT => "FeatureCollection"

/-- The declared fields of each union member, in declaration order
(example lines 11-59). -/
def declaredFieldsOf : GeoJSONTag → List String
  | .geomT .geometryCollectionT => ["geometries"]
  | .geomT _ => ["coordinates"]
  | .featureT => ["geometry", "properties", "id"]
  | .featureCollectionT => ["features"]

mutual

/-- Size of a JSON value (number of tree nodes); used as the recursion
budget of the fuel-indexed decoder. -/
def jsize : Json → Nat
  | .null => 1
  | .bool _ => 1
  | .num _ => 1
  | .str _ => 1
  | .arr items => 1 + jsizeList items
  | .obj fields => 1 + jsizeObj fields

def jsizeList : List Json → Nat
  | [] => 0
  | x :: xs => 1 + jsize x + jsizeList xs

def jsizeObj : List (String × Json) → Nat
  | [] => 0
  | (_, v) :: kvs => 1 + jsize v + jsizeObj kvs

end

/-- Modelled from the spec: §4.7 — a `Position` tuple serializes as a
two-element array. -/
def encodePosition (p : Position) : Json := .arr [.num p.1, .num p.2]

/-- Modelled from the spec: the JSON Encoder of §4.7 on the Geometry
types — a tagged record emits the discriminant field (default name
`"type"`, value the declared type name) as the first key, then the
declared fields in order. -/
def encodeGeometry : Geometry → Json
  | .point c => .obj [("type", .str "Point"), ("coordinates", encodePosition c)]
  | .multiPoint cs =>
    .obj [("type", .str "MultiPoint"), ("coordinates", .arr (cs.map encodePosition))]
  | .lineString cs =>
    .obj [("type", .str "LineString"), ("coordinates", .arr (cs.map encodePosition))]
  | .multiLineString css =>
    .obj [("type", .str "MultiLineString"),
      ("coordinates", .arr (css.map (fun cs => .arr (cs.map encodePosition))))]
  | .polygon css =>
    .obj [("type", .str "Polygon"),
      ("coordinates", .arr (css.map (fun cs => .arr (cs.map encodePosition))))]
  | .multiPolygon csss =>
    .obj [("type", .str "MultiPolygon"),
      ("coordinates", .arr (csss.map (fun css =>
        .arr (css.map (fun cs => .arr (cs.map encodePosition))))))]
  | .geometryCollection gs =>
    .obj [("type", .str "GeometryCollection"),
      ("geometries", .arr (gs.attach.map (fun x => encodeGeometry x.1)))]
termination_by g => sizeOf g
decreasing_by
  have := List.sizeOf_lt_of_mem x.2
  simp only [Geometry.geometryCollection.sizeOf_spec]
  omega

/-- Modelled from the spec: §4.5/§4.7 — an absent optional (`None`) is the
JSON `null` on the wire; a present geometry is encoded as usual. -/
def encodeOptGeometry : Option Geometry → Json
  | none => .null
  | some g => encodeGeometry g

/-- Modelled from the spec: §4.7 — a generic JSON-object field (`dict`)
passes through; `None` is `null`. -/
def encodeProps : Option (List (String × Json)) → Json
  | none => .null
  | some flds => .obj flds

/-- Modelled from the spec: §4.7 — the `str | int | None` field encodes as
a string, a number, or `null`. -/
def encodeId : Option (String ⊕ Int) → Json
  | none => .null
  | some (.inl s) => .str s
  | some (.inr n) => .num (n : ℚ)

/-- Modelled from the spec: §4.7 on the `Feature` record — the
discriminant first, then the declared fields in order. -/
def encodeFeature (f : Feature) : Json :=
  .obj [("type", .str "Feature"), ("geometry", encodeOptGeometry f.geometry),
    ("properties", encodeProps f.properties), ("id", encodeId f.id)]

/-- Modelled from the spec: the `hyperspec.json.Encoder().encode` bound as
`dumps` in the example (line 67), restricted to the GeoJSON types. -/
def encodeGeoJSON : GeoJSONValue → Json
  | .geom g => encodeGeometry g
  | .feature f => encodeFeature f
  | .featureCollection fs =>
    .obj [("type", .str "FeatureCollection"), ("features", .arr (fs.map encodeFeature))]

/-- The keys of a JSON object, in emission order. -/
def objKeys : Json → Option (List String)
  | .obj kvs => some (kvs.map Prod.fst)
  | _ => none

/-- The first key/value pair of a JSON object. -/
def firstField : Json → Option (String × Json)
  | .obj (kv :: _) => some kv
  | _ => none

/-- Errors of the decode/convert path, per the taxonomy of §7.
`recursionLimit` is an artifact of the fuel-indexed model only: the
decoders are always run with fuel at least the size of their input, which
never exhausts. -/
inductive DecodeErr where
  | missingDiscriminant
  | unknownTag (tag : String)
  | missingField (name : String)
  | typeMismatch
  | recursionLimit
deriving DecidableEq

/-- Modelled from the spec: §4.6 — object keys are matched against
declared field names independent of key order; the first binding of a key
wins. -/
def lookupField (kvs : List (String × Json)) (k : String) : Option Json :=
  match kvs with
  | [] => none
  | (k', v) :: rest => if k' = k then some v else lookupField rest k

/-- Modelled from the spec: §4.4 — a required field must be present, else
`MissingFieldError` naming the field. -/
def decodeField (kvs : List (String × Json)) (k : String)
    (dec : Json → Except DecodeErr α) : Except DecodeErr α :=
  match lookupField kvs k with
  | none => .error (.missingField k)
  | some v => dec v

/-- Fail-fast element-wise decoding of a list (§4.5: recurse element-wise,
first error aborts). -/
def mapME (f : α → Except ε β) : List α → Except ε (List β)
  | [] => .ok []
  | x :: xs =>
    match f x with
    | .error e => .error e
    | .ok y =>
      match mapME f xs with
      | .error e => .error e
      | .ok ys => .ok (y :: ys)

/-- Modelled from the spec: decoding a `Position` — a two-element numeric
array (integer literals widen to float per §4.5). -/
def decodePosition (j : Json) : Except DecodeErr Position :=
  match j with
  | .arr [.num a, .num b] => .ok (a, b)
  | _ => .error .typeMismatch

/-- Decoding of `list[Position]`. -/
def decodePosList (j : Json) : Except DecodeErr (List Position) :=
  match j with
  | .arr xs => mapME decodePosition xs
  | _ => .error .typeMismatch

/-- Decoding of `list[list[Position]]`. -/
def decodePosList2 (j : Json) : Except DecodeErr (List (List Position)) :=
  match j with
  | .arr xs => mapME decodePosList xs
  | _ => .error .typeMismatch

/-- Decoding of `list[list[list[Position]]]`. -/
def decodePosList3 (j : Json) : Except DecodeErr (List (List (List Position))) :=
  match j with
  | .arr xs => mapME decodePosList2 xs
  | _ => .error .typeMismatch

/-- Modelled from the spec: the fused JSON Decoder of §4.6 at the
`Geometry` union — read the discriminant field (default name `"type"`,
`MissingDiscriminantError` when absent), resolve it in the UnionTable
(§4.3, `UnknownTagError` when unresolved), then decode the resolved
member's declared fields.  The fuel argument only bounds the recursion
through the self-referential `GeometryCollection` schema. -/
def decodeGeometryF : Nat → Json → Except DecodeErr Geometry
  | 0, _ => .error .recursionLimit
  | fuel + 1, .obj kvs =>
    match lookupField kvs "type" with
    | none => .error .missingDiscriminant
    | some (.str t) =>
      match resolveTag geometryTable t with
      | none => .error (.unknownTag t)
      | some .pointT => (decodeField kvs "coordinates" decodePosition).map .point
      | some .multiPointT => (decodeField kvs "coordinates" decodePosList).map .multiPoint
      | some .lineStringT => (decodeField kvs "coordinates" decodePosList).map .lineString
      | some .multiLineStringT =>
        (decodeField kvs "coordinates" decodePosList2).map .multiLineString
      | some .polygonT => (decodeField kvs "coordinates" decodePosList2).map .polygon
      | some .multiPolygonT => (decodeField kvs "coordinates" decodePosList3).map .multiPolygon
      | some .geometryCollectionT =>
        (decodeField kvs "geometries" (fun gj =>
          match gj with
          | .arr gitems => mapME (decodeGeometryF fuel) gitems
          | _ => .error .typeMismatch)).map .geometryCollection
    | some _ => .error .typeMismatch
  | _ + 1, _ => .error .typeMismatch

/-- Modelled from the spec: §4.5 Optional target — `null` or absence maps
to the explicit absent state, otherwise recurse into the inner type.  The
`geometry` field of `Feature` defaults to `None`. -/
def decodeOptGeometryField (fuel : Nat) (kvs : List (String × Json)) :
    Except DecodeErr (Option Geometry) :=
  match lookupField kvs "geometry" with
  | none => .ok none
  | some .null => .ok none
  | some gj => (decodeGeometryF fuel gj).map some

/-- Decoding of the optional generic-object `properties` field of
`Feature`. -/
def decodePropsField (kvs : List (String × Json)) :
    Except DecodeErr (Option (List (String × Json))) :=
  match lookupField kvs "properties" with
  | none => .ok none
  | some .null => .ok none
  | some (.obj flds) => .ok (some flds)
  | some _ => .error .typeMismatch

/-- Decoding of the optional `str | int | None` field `id` of `Feature`:
a string selects `str`, an integer-valued number selects `int` (§4.6
number classification), anything else is a type mismatch. -/
def decodeIdField (kvs : List (String × Json)) :
    Except DecodeErr (Option (String ⊕ Int)) :=
  match lookupField kvs "id" with
  | none => .ok none
  | some .null => .ok none
  | some (.str s) => .ok (some (.inl s))
  | some (.num q) => if q.den = 1 then .ok (some (.inr q.num)) else .error .typeMismatch
  | some _ => .error .typeMismatch

/-- Modelled from the spec: §4.4/§4.5 RecordRef decoding of the `Feature`
fields from an already-tokenized object: each declared field is decoded in
declaration order, optional fields honouring their `None` defaults;
unknown keys (such as the already-consumed discriminant) are tolerated and
dropped (`forbid_unknown_fields` defaults to false, §4.4). -/
def decodeFeatureFields (fuel : Nat) (kvs : List (String × Json)) :
    Except DecodeErr Feature :=
  match decodeOptGeometryField fuel kvs with
  | .error e => .error e
  | .ok geo =>
    match decodePropsField kvs with
    | .error e => .error e
    | .ok props =>
      match decodeIdField kvs with
      | .error e => .error e
      | .ok idv => .ok { geometry := geo, properties := props, id := idv }

/-- Decoding of a `Feature` from a JSON value: the value must be an
object. -/
def decodeFeature (fuel : Nat) (j : Json) : Except DecodeErr Feature :=
  match j with
  | .obj kvs => decodeFeatureFields fuel kvs
  | _ => .error .typeMismatch

/-- Modelled from the spec: the fused JSON Decoder of §4.6 at the
nine-member `GeoJSON` union — discriminant lookup, UnionTable resolution
(§4.3), then member decoding. -/
def decodeGeoJSONF (fuel : Nat) (j : Json) : Except DecodeErr GeoJSONValue :=
  match j with
  | .obj kvs =>
    match lookupField kvs "type" with
    | none => .error .missingDiscriminant
    | some (.str t) =>
      match resolveTag geoJSONTable t with
      | none => .error (.unknownTag t)
      | some (.geomT _) => (decodeGeometryF fuel j).map .geom
      | some .featureT => (decodeFeatureFields fuel kvs).map .feature
      | some .featureCollectionT =>
        (decodeField kvs "features" (fun fj =>
          match fj with
          | .arr fitems => mapME (decodeFeature fuel) fitems
          | _ => .error .typeMismatch)).map .featureCollection
    | some _ => .error .typeMismatch
  | _ => .error .typeMismatch

/-- Modelled from the spec: the `hyperspec.json.Decoder(GeoJSON).decode`
bound as `loads` in the example (line 66).  The fuel is the size of the
input value, which the recursion — descending strictly into subvalues —
never exhausts. -/
def decodeGeoJSON (j : Json) : Except DecodeErr GeoJSONValue :=
  decodeGeoJSONF (jsize j) j

/-- Modelled from the spec: a decoder bound to the seven-member `Geometry`
union alone, as exercised by the end-to-end scenario of §8. -/
def decodeGeometry (j : Json) : Except DecodeErr Geometry :=
  decodeGeometryF (jsize j) j

/-- The JSON value parsed from the bytes
`\x7b"type":"Point","coordinates":[1.0,2.0]\x7d`. -/
def pointJson : Json :=
  .obj [("type", .str "Point"), ("coordinates", .arr [.num 1, .num 2])]

/-- The JSON value parsed from the bytes
`\x7b"type":"GeometryCollection","geometries":[\x7b"type":"Point","coordinates":[0,0]\x7d]\x7d`. -/
def geometryCollectionJson : Json :=
  .obj [("type", .str "GeometryCollection"),
    ("geometries", .arr [.obj [("type", .str "Point"), ("coordinates", .arr [.num 0, .num 0])]])]

/-- Modelled from the spec: §4.2 — a per-field constraint set with
optional inclusive numeric bounds, as declared by `Meta(ge=..., le=...)` in
the benchmark. -/
structure NumericBounds where
  ge : Option Int
  le : Option Int

/-- Modelled from the spec: §7 — a `ValidationError` carries the dotted
field path and the violated rule. -/
structure ValidationError where
  path : String
  rule : String
deriving DecidableEq

/-- Modelled from the spec: §4.2 `validate` on an integer value — numeric
bounds are inclusive on both ends; a violation reports the field path and
the violated rule, and nothing is clamped or coerced. -/
def validateIntBounds (v : Int) (b : NumericBounds) (path : String) :
    Except ValidationError Int :=
  match b.ge with
  | some lo =>
    if v < lo then .error { path := path, rule := "minimum_value" }
    else
      match b.le with
      | some hi =>
        if hi < v then .error { path := path, rule := "maximum_value" } else .ok v
      | none => .ok v
  | none =>
    match b.le with
    | some hi =>
      if hi < v then .error { path := path, rule := "maximum_value" } else .ok v
    | none => .ok v

/-- The constraint of the benchmark `User.score` field:
`Annotated[int, Meta(ge=0, le=1_000_000)]` (bench lines 72-79). -/
def scoreBounds : NumericBounds := { ge := some 0, le := some 1000000 }

/-- Modelled from the spec: §4.5 — conversion of an untyped integer into
the `score` field applies the field's constraints to the converted value
at field path `score`. -/
def convertScore (v : Int) : Except ValidationError Int :=
  validateIntBounds v scoreBounds "score"

theorem pctExceedsOne_pct_iff (d b : ℚ) :
    pctExceedsOne (pct d b) = true ↔ 1 < 100 * d / b := by
  by_cases hb : b = 0
  · subst hb
    simp [pct, pctExceedsOne]
  · simp only [pct, hb, if_false, pctExceedsOne, decide_eq_true_eq, mul_div_assoc]

/-- Claim C1: for every completed benchmark run (timing lists gathered for
both libraries), `main` exits with status 1 and prints the FAIL line iff the
median instantiation regression percentage or the median validation
regression percentage of hyperspec relative to msgspec exceeds 1.0, and
otherwise it prints the PASS line and exits with status 0. -/
theorem benchVerdict_fail_iff (mi hi mv hv : List ℚ) :
    (((benchVerdict mi hi mv hv).exitCode = 1 ∧ failLine ∈ (benchVerdict mi hi mv hv).printed) ↔
      (1 < 100 * (medianQ hi - medianQ mi) / medianQ mi ∨
        1 < 100 * (medianQ hv - medianQ mv) / medianQ mv)) ∧
    (((benchVerdict mi hi mv hv).exitCode = 0 ∧ passLine ∈ (benchVerdict mi hi mv hv).printed) ↔
      ¬(1 < 100 * (medianQ hi - medianQ mi) / medianQ mi ∨
        1 < 100 * (medianQ hv - medianQ mv) / medianQ mv)) := by
  rw [← pctExceedsOne_pct_iff (medianQ hi - medianQ mi) (medianQ mi),
    ← pctExceedsOne_pct_iff (medianQ hv - medianQ mv) (medianQ mv)]
  unfold benchVerdict
  cases hA : pctExceedsOne (pct (medianQ hi - medianQ mi) (medianQ mi)) <;>
    cases hB : pctExceedsOne (pct (medianQ hv - medianQ mv) (medianQ mv)) <;>
      simp [hA, hB, failLine, passLine]

/-- Claim C2: `_classify_regression` returns exactly one of five labels,
partitioning the rational line at inclusive upper bounds 0, 1, 5 and 10. -/
theorem classifyRegression_partition (p : ℚ) :
    classifyRegression p ∈
      ["hyperspec faster", "within 1%", "within 5%", "within 10%", "more than 10%"] ∧
    (classifyRegression p = "hyperspec faster" ↔ p ≤ 0) ∧
    (classifyRegression p = "within 1%" ↔ 0 < p ∧ p ≤ 1) ∧
    (classifyRegression p = "within 5%" ↔ 1 < p ∧ p ≤ 5) ∧
    (classifyRegression p = "within 10%" ↔ 5 < p ∧ p ≤ 10) ∧
    (classifyRegression p = "more than 10%" ↔ 10 < p) := by
  by_cases h0 : p ≤ 0 <;> by_cases h1 : p ≤ 1 <;> by_cases h5 : p ≤ 5 <;>
    by_cases h10 : p ≤ 10 <;>
      simp only [classifyRegression, h0, h1, h5, h10, if_true, if_false,
        List.mem_cons, List.mem_singleton] <;>
        refine ⟨by simp, ?_, ?_, ?_, ?_, ?_⟩ <;> simp <;> all_goals linarith

/-- Claim C8: `_pct` is total: it returns NaN (modelled `none`) exactly when
the base is zero, and otherwise returns `100.0 * (delta / base)`, a value
`q` characterised division-free by `q * base = 100 * delta`; no division by
zero is performed. -/
theorem pct_total (d b : ℚ) :
    (pct d b = none ↔ b = 0) ∧
    (b ≠ 0 → pct d b = some (100 * (d / b))) ∧
    (∀ q, pct d b = some q → q * b = 100 * d) := by
  refine ⟨?_, ?_, ?_⟩
  · unfold pct
    split <;> simp_all
  · intro hb
    simp [pct, hb]
  · intro q hq
    unfold pct at hq
    split at hq
    · cases hq
    · next hb =>
      injection hq with h
      rw [← h]
      field_simp

/-- Witness for C8 at the concrete input `delta = 3`, `base = 2`. -/
theorem pct_total_witness :
    pct 3 2 = some 150 ∧ (150 : ℚ) * 2 = 100 * 3 := by
  have h2 := (pct_total 3 2).2.1 (by norm_num)
  have h3 : (100 : ℚ) * (3 / 2) = 150 := by norm_num
  exact ⟨by rw [h2, h3], (pct_total 3 2).2.2 150 (by rw [h2, h3])⟩

/-- Claim C9: for every integer `--runs` value `r` and `--warmup` value `w`,
`main` executes exactly `max(1, min(r, 10))` measured runs — always between
1 and 10 inclusive — and `max(0, w)` warmup iterations, never negative. -/
theorem run_counts_clamped (r w : Int) :
    (measuredRunCount r : Int) = max 1 (min r 10) ∧
    1 ≤ measuredRunCount r ∧ measuredRunCount r ≤ 10 ∧
    (warmupRunCount w : Int) = max 0 w := by
  simp only [measuredRunCount, warmupRunCount, clampedRuns, clampedWarmup,
    List.length_range]
  omega

theorem dropWhile_head_false {p : Char → Bool} {l : List Char} {c : Char}
    {rest : List Char} (h : l.dropWhile p = c :: rest) : p c = false := by
  induction l with
  | nil => cases h
  | cons a l ih =>
    rw [List.dropWhile_cons] at h
    by_cases hpa : p a = true
    · rw [if_pos hpa] at h
      exact ih h
    · rw [if_neg hpa] at h
      injection h with h1 _
      subst h1
      simpa using hpa

theorem takeWhile_not_nl {cs : List Char} :
    ∀ a ∈ cs.takeWhile (fun c => !isNl c), a ≠ '\n' := by
  intro a ha
  have h := List.mem_takeWhile_imp ha
  simpa [isNl] using h

theorem lineStart_nil : lineStart [] := Or.inl rfl

theorem lineStart_extend {tk pre0 : List Char} (h : lineStart pre0) :
    lineStart (tk ++ '\n' :: pre0) := by
  rcases h with rfl | h
  · exact Or.inr (List.getLast?_concat _)
  · right
    have hne : pre0 ≠ [] := by
      rintro rfl
      simp at h
    rw [show tk ++ '\n' :: pre0 = (tk ++ ['\n']) ++ pre0 by simp]
    rw [List.getLast?_append_of_ne_nil _ hne]
    exact h

theorem split_at_lineStart {cs tk rest' pre suf : List Char}
    (hcs : cs = tk ++ '\n' :: rest') (htk : ∀ a ∈ tk, a ≠ '\n')
    (hsplit : cs = pre ++ suf) (hne : pre ≠ []) (hls : lineStart pre) :
    ∃ m, pre = tk ++ '\n' :: m ∧ rest' = m ++ suf ∧ lineStart m := by
  have hlast : pre.getLast? = some '\n' := by
    rcases hls with rfl | h
    · exact absurd rfl hne
    · exact h
  have h2 : pre ++ suf = (tk ++ ['\n']) ++ rest' := by
    rw [← hsplit, hcs]
    simp
  rcases List.append_eq_append_iff.mp h2 with ⟨m, hm1, hm2⟩ | ⟨m, hm1, hm2⟩
  · rcases m with _ | ⟨x, m'⟩
    · refine ⟨[], ?_, ?_, lineStart_nil⟩
      · simpa using hm1.symm
      · simpa using hm2.symm
    · exfalso
      have hmem : '\n' ∈ pre := List.mem_of_getLast?_eq_some hlast
      have hxne : (x :: m') ≠ [] := by simp
      have hdl : (pre ++ (x :: m').dropLast) ++ [(x :: m').getLast hxne] = tk ++ ['\n'] := by
        rw [List.append_assoc, List.dropLast_append_getLast hxne]
        exact hm1.symm
      have htkeq := (List.append_inj' hdl (by simp)).1
      have hintk : '\n' ∈ tk := by
        rw [← htkeq]
        exact List.mem_append_left _ hmem
      exact htk _ hintk rfl
  · refine ⟨m, by simpa using hm1, hm2, ?_⟩
    rcases m with _ | ⟨y, m''⟩
    · exact lineStart_nil
    · right
      have heq : pre.getLast? = (y :: m'').getLast? := by
        rw [hm1]
        exact List.getLast?_append_of_ne_nil _ (by simp)
      rw [← heq]
      exact hlast

theorem searchHeadingF_eq_none : ∀ (fuel : Nat) (cs : List Char),
    (∀ pre suf, cs = pre ++ suf → lineStart pre → matchHeadingAt suf = none) →
    searchHeadingF fuel cs = none := by
  intro fuel
  induction fuel with
  | zero => intro cs _; rfl
  | succ fuel ih =>
    intro cs h
    rw [searchHeadingF, h [] cs rfl lineStart_nil]
    cases hd : cs.dropWhile (fun c => !isNl c) with
    | nil => rfl
    | cons c rest' =>
      have hc : c = '\n' := by
        have := dropWhile_head_false hd
        simpa [isNl] using this
      subst hc
      have hcs : cs = cs.takeWhile (fun c => !isNl c) ++ '\n' :: rest' := by
        have h0 := (List.takeWhile_append_dropWhile (fun c => !isNl c) cs).symm
        rw [hd] at h0
        exact h0
      apply ih
      intro pre0 suf0 hsp hls0
      apply h (cs.takeWhile (fun c => !isNl c) ++ '\n' :: pre0) suf0
      · conv_lhs => rw [hcs]
        rw [hsp]
        simp
      · exact lineStart_extend hls0

theorem searchHeadingF_none_forall : ∀ (fuel : Nat) (cs : List Char),
    cs.length < fuel → searchHeadingF fuel cs = none →
    ∀ pre suf, cs = pre ++ suf → lineStart pre → matchHeadingAt suf = none := by
  intro fuel
  induction fuel with
  | zero => intro cs hlen; exact absurd hlen (Nat.not_lt_zero _)
  | succ fuel ih =>
    intro cs hlen h pre suf hsp hls
    rw [searchHeadingF] at h
    cases hm : matchHeadingAt cs with
    | some r =>
      rw [hm] at h
      exact absurd h (by simp)
    | none =>
      rw [hm] at h
      rcases eq_or_ne pre [] with rfl | hne
      · simp at hsp
        rw [← hsp]
        exact hm
      · cases hd : cs.dropWhile (fun c => !isNl c) with
        | nil =>
          exfalso
          have hall := List.dropWhile_eq_nil_iff.mp hd
          have hlast : pre.getLast? = some '\n' := by
            rcases hls with rfl | hgl
            · exact absurd rfl hne
            · exact hgl
          have hmem : '\n' ∈ cs := by
            rw [hsp]
            exact List.mem_append_left _ (List.mem_of_getLast?_eq_some hlast)
          have := hall _ hmem
          simp [isNl] at this
        | cons c rest' =>
          rw [hd] at h
          have hc : c = '\n' := by
            have := dropWhile_head_false hd
            simpa [isNl] using this
          subst hc
          have hcs : cs = cs.takeWhile (fun c => !isNl c) ++ '\n' :: rest' := by
            have h0 := (List.takeWhile_append_dropWhile (fun c => !isNl c) cs).symm
            rw [hd] at h0
            exact h0
          obtain ⟨m, hpre, hrest, hlsm⟩ :=
            split_at_lineStart hcs takeWhile_not_nl hsp hne hls
          have hlen' : rest'.length < fuel := by
            have hlc : cs.length =
                (cs.takeWhile (fun c => !isNl c)).length + 1 + rest'.length := by
              conv_lhs => rw [hcs]
              simp
              omega
            omega
          exact ih rest' hlen' h m suf hrest hlsm

theorem searchHeadingF_first : ∀ (fuel : Nat) (cs v rest : List Char),
    searchHeadingF fuel cs = some (v, rest) →
    ∃ pre suf, cs = pre ++ suf ∧ lineStart pre ∧
      matchHeadingAt suf = some (v, rest) ∧
      ∀ pre' suf', cs = pre' ++ suf' → pre'.length < pre.length → lineStart pre' →
        matchHeadingAt suf' = none := by
  intro fuel
  induction fuel with
  | zero => intro cs v rest h; cases h
  | succ fuel ih =>
    intro cs v rest h
    rw [searchHeadingF] at h
    cases hm : matchHeadingAt cs with
    | some r =>
      rw [hm] at h
      have hr : r = (v, rest) := by
        injection h
      subst hr
      exact ⟨[], cs, rfl, lineStart_nil, hm,
        fun pre' suf' _ hlen _ => absurd hlen (Nat.not_lt_zero _)⟩
    | none =>
      rw [hm] at h
      cases hd : cs.dropWhile (fun c => !isNl c) with
      | nil =>
        rw [hd] at h
        cases h
      | cons c rest' =>
        rw [hd] at h
        have hc : c = '\n' := by
          have := dropWhile_head_false hd
          simpa [isNl] using this
        subst hc
        obtain ⟨pre0, suf0, hrest, hls0, hm0, hmin0⟩ := ih rest' v rest h
        have hcs : cs = cs.takeWhile (fun c => !isNl c) ++ '\n' :: rest' := by
          have h0 := (List.takeWhile_append_dropWhile (fun c => !isNl c) cs).symm
          rw [hd] at h0
          exact h0
        refine ⟨cs.takeWhile (fun c => !isNl c) ++ '\n' :: pre0, suf0, ?_,
          lineStart_extend hls0, hm0, ?_⟩
        · conv_lhs => rw [hcs]
          rw [hrest]
          simp
        · intro pre' suf' hsp hlen hls'
          rcases eq_or_ne pre' [] with rfl | hne
          · simp at hsp
            rw [← hsp]
            exact hm
          · obtain ⟨m, hpre', hrest', hlsm⟩ :=
              split_at_lineStart hcs takeWhile_not_nl hsp hne hls'
            apply hmin0 m suf' hrest'
            · rw [hpre'] at hlen
              simp at hlen ⊢
              omega
            · exact hlsm

/-- Claim C10: `main` of the release script extracts the first (topmost)
`## Version <v>` section of the changelog: when the heading pattern
matches at no position it raises a `RuntimeError` naming the changelog
path and opens no browser tab, and otherwise it opens the release page
with title `Version <v>`, tag `<v>`, and as body the section's notes with
every `\x7bpr\x7d`－backquoted decimal number `N` rewritten to `#N`; the
extracted section is the leftmost match of the heading pattern, all
earlier anchor positions failing. -/
theorem releaseMain_spec (changelog path : List Char) :
    ((∀ pre suf, changelog = pre ++ suf → lineStart pre →
        matchHeadingAt suf = none) →
      releaseMain changelog path =
        { browserParams := none
          raisedError := some ("Unable to parse changelog at ".data ++ path) }) ∧
    (∀ v notes, extractFirstVersionSection changelog = some (v, notes) →
      releaseMain changelog path =
        { browserParams := some
            [("title".data, "Version ".data ++ v), ("tag".data, v),
              ("body".data, prSub notes)]
          raisedError := none }) ∧
    (∀ v notes, extractFirstVersionSection changelog = some (v, notes) →
      ∃ pre suf rest, changelog = pre ++ suf ∧ lineStart pre ∧
        matchHeadingAt suf = some (v, rest) ∧
        notes = stripChars (takeNotes rest) ∧
        ∀ pre' suf', changelog = pre' ++ suf' → pre'.length < pre.length →
          lineStart pre' → matchHeadingAt suf' = none) := by
  refine ⟨?_, ?_, ?_⟩
  · intro h
    rw [releaseMain, extractFirstVersionSection, searchHeading,
      searchHeadingF_eq_none (changelog.length + 1) changelog h]
  · intro v notes h
    rw [releaseMain, h]
  · intro v notes h
    rw [extractFirstVersionSection] at h
    cases hf : searchHeading changelog with
    | none =>
      rw [hf] at h
      cases h
    | some p =>
      rw [hf] at h
      obtain ⟨v', rest⟩ := p
      injection h with h'
      have hv : v' = v := congrArg Prod.fst h'
      have hn : notes = stripChars (takeNotes rest) := (congrArg Prod.snd h').symm
      subst hv
      rw [searchHeading] at hf
      obtain ⟨pre, suf, heq, hls, hmatch, hmin⟩ :=
        searchHeadingF_first (changelog.length + 1) changelog v' rest hf
      exact ⟨pre, suf, rest, heq, hls, hmatch, hn, hmin⟩

/-- Witness for C10: a changelog with no version heading raises the error
naming the path; a two-section changelog releases the first section with
the pr reference rewritten; a heading whose whitespace spans newlines
matches; and NBSP whitespace with Arabic-Indic digits in the pr reference
is handled as Python's `\s`/`\d` classes prescribe. -/
theorem releaseMain_spec_witness :
    releaseMain "# Changelog\nnothing here\n".data "docs/changelog.md".data =
      { browserParams := none
        raisedError := some "Unable to parse changelog at docs/changelog.md".data } ∧
    releaseMain
        "# Changelog\n\n## Version 0.19.0 (2024-01-01)\n\n- Fixed a bug \x7bpr\x7d`42`\n\n## Version 0.18.0\n\n- Old\n".data
        "docs/changelog.md".data =
      { browserParams := some
          [("title".data, "Version 0.19.0".data), ("tag".data, "0.19.0".data),
            ("body".data, "- Fixed a bug #42".data)]
        raisedError := none } ∧
    releaseMain "##\nVersion 1.0\nnotes\n".data "docs/changelog.md".data =
      { browserParams := some
          [("title".data, "Version 1.0".data), ("tag".data, "1.0".data),
            ("body".data, "notes".data)]
        raisedError := none } ∧
    releaseMain "##\u00A0Version\u00A01.2\nfix \x7bpr\x7d`٤٢`\n".data
        "docs/changelog.md".data =
      { browserParams := some
          [("title".data, "Version 1.2".data), ("tag".data, "1.2".data),
            ("body".data, "fix #٤٢".data)]
        raisedError := none } := by
  refine ⟨?_, ?_, ?_, ?_⟩
  · have h := (releaseMain_spec "# Changelog\nnothing here\n".data "docs/changelog.md".data).1
    rw [h (searchHeadingF_none_forall ("# Changelog\nnothing here\n".data.length + 1)
      "# Changelog\nnothing here\n".data (Nat.lt_succ_self _) (by decide))]
    decide
  · have h := (releaseMain_spec
      "# Changelog\n\n## Version 0.19.0 (2024-01-01)\n\n- Fixed a bug \x7bpr\x7d`42`\n\n## Version 0.18.0\n\n- Old\n".data
      "docs/changelog.md".data).2.1
    rw [h "0.19.0".data "- Fixed a bug \x7bpr\x7d`42`".data (by decide)]
    decide
  · have h := (releaseMain_spec "##\nVersion 1.0\nnotes\n".data "docs/changelog.md".data).2.1
    rw [h "1.0".data "notes".data (by decide)]
    decide
  · have h := (releaseMain_spec "##\u00A0Version\u00A01.2\nfix \x7bpr\x7d`٤٢`\n".data
      "docs/changelog.md".data).2.1
    rw [h "1.2".data "fix \x7bpr\x7d`٤٢`".data (by decide)]
    decide

theorem jsize_pointJson : jsize pointJson = 9 := by
  norm_num [pointJson, jsize, jsizeList, jsizeObj]

theorem jsize_geometryCollectionJson : jsize geometryCollectionJson = 15 := by
  norm_num [geometryCollectionJson, jsize, jsizeList, jsizeObj]

/-- Claim C4: against the example's seven-member Geometry union (with
`GeometryCollection` self-referential), decoding the bytes
`\x7b"type":"Point","coordinates":[1.0,2.0]\x7d` yields a `Point` whose
coordinates equal `(1.0, 2.0)`, and decoding
`\x7b"type":"GeometryCollection","geometries":[\x7b"type":"Point","coordinates":[0,0]\x7d]\x7d`
succeeds, yielding the collection of the single point `(0, 0)`. -/
theorem decode_geojson_examples :
    decodeGeometry pointJson = .ok (.point (1, 2)) ∧
    decodeGeometry geometryCollectionJson =
      .ok (.geometryCollection [.point (0, 0)]) ∧
    decodeGeoJSON pointJson = .ok (.geom (.point (1, 2))) ∧
    decodeGeoJSON geometryCollectionJson =
      .ok (.geom (.geometryCollection [.point (0, 0)])) ∧
    geometryTable.map Prod.fst =
      ["Point", "MultiPoint", "LineString", "MultiLineString", "Polygon",
        "MultiPolygon", "GeometryCollection"] := by
  refine ⟨?_, ?_, ?_, ?_, rfl⟩
  · show decodeGeometryF (jsize pointJson) pointJson = _
    rw [jsize_pointJson]
    rfl
  · show decodeGeometryF (jsize geometryCollectionJson) geometryCollectionJson = _
    rw [jsize_geometryCollectionJson]
    rfl
  · show decodeGeoJSONF (jsize pointJson) pointJson = _
    rw [jsize_pointJson]
    rfl
  · show decodeGeoJSONF (jsize geometryCollectionJson) geometryCollectionJson = _
    rw [jsize_geometryCollectionJson]
    rfl

theorem mapME_map_ok (f : α → Except ε β) (g : β → α) (xs : List β)
    (h : ∀ x ∈ xs, f (g x) = .ok x) : mapME f (xs.map g) = .ok xs := by
  induction xs with
  | nil => rfl
  | cons x xs ih =>
    simp only [List.map_cons, mapME, h x (by simp), ih (fun y hy => h y (by simp [hy]))]

theorem rtPosition (p : Position) : decodePosition (encodePosition p) = .ok p := by
  obtain ⟨a, b⟩ := p
  rfl

theorem rtPosList (cs : List Position) :
    decodePosList (.arr (cs.map encodePosition)) = .ok cs := by
  simp only [decodePosList]
  exact mapME_map_ok _ _ _ (fun p _ => rtPosition p)

theorem rtPosList2 (css : List (List Position)) :
    decodePosList2 (.arr (css.map (fun cs => .arr (cs.map encodePosition)))) = .ok css := by
  simp only [decodePosList2]
  exact mapME_map_ok _ _ _ (fun cs _ => rtPosList cs)

theorem rtPosList3 (csss : List (List (List Position))) :
    decodePosList3 (.arr (csss.map (fun css =>
      .arr (css.map (fun cs => .arr (cs.map encodePosition)))))) = .ok csss := by
  simp only [decodePosList3]
  exact mapME_map_ok _ _ _ (fun css _ => rtPosList2 css)

theorem jsize_pos (j : Json) : 1 ≤ jsize j := by
  cases j <;> simp [jsize]

theorem jsize_lt_of_mem {x : Json} {xs : List Json} (h : x ∈ xs) :
    jsize x < jsizeList xs := by
  induction xs with
  | nil => cases h
  | cons y ys ih =>
    rcases List.mem_cons.mp h with rfl | h'
    · simp [jsizeList]
      omega
    · have := ih h'
      simp [jsizeList]
      omega

theorem encodeGeometry_geometryCollection (gs : List Geometry) :
    encodeGeometry (.geometryCollection gs) =
      .obj [("type", .str "GeometryCollection"),
        ("geometries", .arr (gs.map encodeGeometry))] := by
  rw [encodeGeometry]
  simp [List.attach_map_val]

theorem encodeGeometry_isObj (g : Geometry) : ∃ kvs, encodeGeometry g = .obj kvs := by
  cases g <;> rw [encodeGeometry] <;> exact ⟨_, rfl⟩

theorem rtGeometryF : ∀ (fuel : Nat) (g : Geometry),
    jsize (encodeGeometry g) ≤ fuel → decodeGeometryF fuel (encodeGeometry g) = .ok g := by
  intro fuel
  induction fuel with
  | zero =>
    intro g h
    have := jsize_pos (encodeGeometry g)
    omega
  | succ fuel ih =>
    intro g h
    cases g with
    | point c =>
      rw [encodeGeometry]
      simp [decodeGeometryF, lookupField, resolveTag, geometryTable, decodeField,
        rtPosition, Except.map]
    | multiPoint cs =>
      rw [encodeGeometry]
      simp [decodeGeometryF, lookupField, resolveTag, geometryTable, decodeField,
        rtPosList, Except.map]
    | lineString cs =>
      rw [encodeGeometry]
      simp [decodeGeometryF, lookupField, resolveTag, geometryTable, decodeField,
        rtPosList, Except.map]
    | multiLineString css =>
      rw [encodeGeometry]
      simp [decodeGeometryF, lookupField, resolveTag, geometryTable, decodeField,
        rtPosList2, Except.map]
    | polygon css =>
      rw [encodeGeometry]
      simp [decodeGeometryF, lookupField, resolveTag, geometryTable, decodeField,
        rtPosList2, Except.map]
    | multiPolygon csss =>
      rw [encodeGeometry]
      simp [decodeGeometryF, lookupField, resolveTag, geometryTable, decodeField,
        rtPosList3, Except.map]
    | geometryCollection gs =>
      rw [encodeGeometry_geometryCollection] at h ⊢
      have hsz : jsize (.obj [("type", Json.str "GeometryCollection"),
          ("geometries", .arr (gs.map encodeGeometry))]) =
          5 + jsizeList (gs.map encodeGeometry) := by
        simp [jsize, jsizeObj, jsizeList]
        omega
      rw [hsz] at h
      have hmem : ∀ g' ∈ gs, decodeGeometryF fuel (encodeGeometry g') = .ok g' := by
        intro g' hg'
        apply ih
        have h1 : jsize (encodeGeometry g') < jsizeList (gs.map encodeGeometry) :=
          jsize_lt_of_mem (List.mem_map_of_mem _ hg')
        omega
      simp [decodeGeometryF, lookupField, resolveTag, geometryTable, decodeField,
        mapME_map_ok _ _ _ hmem, Except.map]

theorem jsize_encodeFeature (f : Feature) :
    jsize (encodeFeature f) = 6 + jsize (encodeOptGeometry f.geometry) +
      jsize (encodeProps f.properties) + jsize (encodeId f.id) := by
  simp [encodeFeature, jsize, jsizeObj]
  omega

theorem rtFeatureFields (fuel : Nat) (f : Feature)
    (h : jsize (encodeFeature f) ≤ fuel) :
    decodeFeatureFields fuel [("type", .str "Feature"),
      ("geometry", encodeOptGeometry f.geometry),
      ("properties", encodeProps f.properties), ("id", encodeId f.id)] = .ok f := by
  obtain ⟨geo, props, idv⟩ := f
  have hgeo : decodeOptGeometryField fuel [("type", .str "Feature"),
      ("geometry", encodeOptGeometry geo),
      ("properties", encodeProps props), ("id", encodeId idv)] = .ok geo := by
    cases geo with
    | none => simp [decodeOptGeometryField, lookupField, encodeOptGeometry]
    | some g =>
      obtain ⟨kvs', hk⟩ := encodeGeometry_isObj g
      have hfuel : jsize (encodeGeometry g) ≤ fuel := by
        rw [jsize_encodeFeature] at h
        simp only [encodeOptGeometry] at h
        have := jsize_pos (encodeProps props)
        have := jsize_pos (encodeId idv)
        omega
      have hlook : lookupField [("type", .str "Feature"),
          ("geometry", encodeOptGeometry (some g)),
          ("properties", encodeProps props), ("id", encodeId idv)] "geometry" =
          some (encodeGeometry g) := by
        simp [lookupField, encodeOptGeometry]
      simp only [decodeOptGeometryField, hlook, hk]
      rw [← hk, rtGeometryF fuel g hfuel]
      rfl
  have hprops : decodePropsField [("type", .str "Feature"),
      ("geometry", encodeOptGeometry geo),
      ("properties", encodeProps props), ("id", encodeId idv)] = .ok props := by
    cases props <;> simp [decodePropsField, lookupField, encodeProps]
  have hid : decodeIdField [("type", .str "Feature"),
      ("geometry", encodeOptGeometry geo),
      ("properties", encodeProps props), ("id", encodeId idv)] = .ok idv := by
    rcases idv with _ | s | n <;> simp [decodeIdField, lookupField, encodeId]
  simp [decodeFeatureFields, hgeo, hprops, hid]

theorem rtFeature (fuel : Nat) (f : Feature) (h : jsize (encodeFeature f) ≤ fuel) :
    decodeFeature fuel (encodeFeature f) = .ok f := by
  have := rtFeatureFields fuel f h
  simpa [decodeFeature, encodeFeature] using this

theorem decodeGeoJSONF_geom (fuel : Nat) (g : Geometry) :
    decodeGeoJSONF fuel (encodeGeometry g) =
      (decodeGeometryF fuel (encodeGeometry g)).map .geom := by
  cases g <;>
    first
    | (rw [encodeGeometry_geometryCollection]
       simp [decodeGeoJSONF, lookupField, resolveTag, geoJSONTable])
    | (rw [encodeGeometry]
       simp [decodeGeoJSONF, lookupField, resolveTag, geoJSONTable])

theorem rtGeoJSONF (fuel : Nat) (x : GeoJSONValue)
    (h : jsize (encodeGeoJSON x) ≤ fuel) :
    decodeGeoJSONF fuel (encodeGeoJSON x) = .ok x := by
  cases x with
  | geom g =>
    show decodeGeoJSONF fuel (encodeGeometry g) = _
    rw [decodeGeoJSONF_geom, rtGeometryF fuel g h]
    rfl
  | feature f =>
    show decodeGeoJSONF fuel (encodeFeature f) = _
    rw [show encodeFeature f = .obj [("type", .str "Feature"),
      ("geometry", encodeOptGeometry f.geometry),
      ("properties", encodeProps f.properties), ("id", encodeId f.id)] from rfl]
    simp only [decodeGeoJSONF, lookupField]
    norm_num [resolveTag, geoJSONTable]
    rw [rtFeatureFields fuel f h]
    rfl
  | featureCollection fs =>
    have hsz : jsize (encodeGeoJSON (.featureCollection fs)) =
        5 + jsizeList (fs.map encodeFeature) := by
      simp [encodeGeoJSON, jsize, jsizeObj, jsizeList]
      omega
    rw [hsz] at h
    have hmem : ∀ f' ∈ fs, decodeFeature fuel (encodeFeature f') = .ok f' := by
      intro f' hf'
      apply rtFeature
      have h1 : jsize (encodeFeature f') < jsizeList (fs.map encodeFeature) :=
        jsize_lt_of_mem (List.mem_map_of_mem _ hf')
      omega
    show decodeGeoJSONF fuel (.obj [("type", .str "FeatureCollection"),
      ("features", .arr (fs.map encodeFeature))]) = _
    simp [decodeGeoJSONF, lookupField, resolveTag, geoJSONTable, decodeField,
      mapME_map_ok _ _ _ hmem, Except.map]

/-- Claim C3: for every valid typed GeoJSON instance `x`, decoding the
bytes produced by encoding `x` with the example's `dumps`/`loads` pair
yields an instance structurally equal to `x`:
`decode(encode(x)) == x`. -/
theorem decode_encode_roundtrip (x : GeoJSONValue) :
    decodeGeoJSON (encodeGeoJSON x) = .ok x :=
  rtGeoJSONF (jsize (encodeGeoJSON x)) x le_rfl

theorem exceptMap_eq_ok {ε α β : Type} (x : Except ε α) (f : α → β) (b : β) :
    x.map f = .ok b ↔ ∃ a, x = .ok a ∧ f a = b := by
  cases x <;> simp [Except.map]

theorem resolveTag_geoJSONTable_geomT {t : String} {gt : GeometryTag}
    (h : resolveTag geoJSONTable t = some (.geomT gt)) :
    resolveTag geometryTable t = some gt := by
  simp only [geoJSONTable, geometryTable, resolveTag] at h ⊢
  split_ifs at h ⊢ <;> simp_all

theorem decodeGeometryF_tagOf {fuel : Nat} {kvs : List (String × Json)} {t : String}
    {gt : GeometryTag} {g : Geometry}
    (hl : lookupField kvs "type" = some (.str t))
    (hr : resolveTag geometryTable t = some gt)
    (hdec : decodeGeometryF fuel (.obj kvs) = .ok g) :
    geometryTagOf g = gt := by
  cases fuel with
  | zero => simp [decodeGeometryF] at hdec
  | succ fuel =>
    simp only [decodeGeometryF, hl, hr] at hdec
    cases gt <;>
      (obtain ⟨a, -, rfl⟩ := (exceptMap_eq_ok _ _ _).mp hdec; rfl)

/-- Claim C5: in the nine-member GeoJSON union table the discriminant
values are unique; decoding an object whose discriminant value resolves to
no member fails with `UnknownTagError` carrying that value; and a decode
that succeeds always returns a value of precisely the member the
discriminant resolved to. -/
theorem union_dispatch (fuel : Nat) (kvs : List (String × Json)) (t : String) :
    ((geoJSONTable.map Prod.fst).Nodup ∧ (geometryTable.map Prod.fst).Nodup) ∧
    (lookupField kvs "type" = some (.str t) → resolveTag geoJSONTable t = none →
      decodeGeoJSONF fuel (.obj kvs) = .error (.unknownTag t)) ∧
    (∀ tag v, lookupField kvs "type" = some (.str t) →
      resolveTag geoJSONTable t = some tag →
      decodeGeoJSONF fuel (.obj kvs) = .ok v → geoJSONTagOf v = tag) := by
  refine ⟨⟨by decide, by decide⟩, ?_, ?_⟩
  · intro hl hr
    simp [decodeGeoJSONF, hl, hr]
  · intro tag v hl hr hdec
    simp only [decodeGeoJSONF, hl, hr] at hdec
    cases tag with
    | geomT gt =>
      obtain ⟨g, hg, rfl⟩ := (exceptMap_eq_ok _ _ _).mp hdec
      simp only [geoJSONTagOf]
      rw [decodeGeometryF_tagOf hl (resolveTag_geoJSONTable_geomT hr) hg]
    | featureT =>
      obtain ⟨f, -, rfl⟩ := (exceptMap_eq_ok _ _ _).mp hdec
      rfl
    | featureCollectionT =>
      obtain ⟨fs, -, rfl⟩ := (exceptMap_eq_ok _ _ _).mp hdec
      rfl

/-- Witness for C5: the unresolved tag `Banana` fails with
`UnknownTagError`, and a successful `MultiPoint` decode returns a
`MultiPoint` value. -/
theorem union_dispatch_witness :
    decodeGeoJSONF 1 (.obj [("type", .str "Banana")]) = .error (.unknownTag "Banana") ∧
    geoJSONTagOf (.geom (.multiPoint [(3, 4)])) = .geomT .multiPointT := by
  constructor
  · exact (union_dispatch 1 [("type", .str "Banana")] "Banana").2.1 rfl rfl
  · exact (union_dispatch 7
      [("type", .str "MultiPoint"), ("coordinates", .arr [.arr [.num 3, .num 4]])]
      "MultiPoint").2.2 (.geomT .multiPointT) (.geom (.multiPoint [(3, 4)])) rfl rfl rfl

/-- Claim C6: numeric constraint bounds are inclusive on both ends: the
`[0, 1_000_000]` bound of the benchmark's `User.score` field accepts `0`
and `1_000_000`, and rejects `-1` and `1_000_001` with a
`ValidationError` identifying the field path `score`. -/
theorem score_bounds_inclusive :
    convertScore 0 = .ok 0 ∧
    convertScore 1000000 = .ok 1000000 ∧
    convertScore (-1) = .error { path := "score", rule := "minimum_value" } ∧
    convertScore 1000001 = .error { path := "score", rule := "maximum_value" } := by
  refine ⟨?_, ?_, ?_, ?_⟩ <;> rfl

/-- Claim C7: every GeoJSON example record type is tagged without
overrides, so its discriminant field is named `type` and its discriminant
value is the type's declared name; an encoded instance carries the
discriminant as the first key of the JSON object, followed by the declared
fields in declaration order. -/
theorem tagged_encoding_layout (x : GeoJSONValue) :
    objKeys (encodeGeoJSON x) = some ("type" :: declaredFieldsOf (geoJSONTagOf x)) ∧
    firstField (encodeGeoJSON x) = some ("type", .str (tagNameOf (geoJSONTagOf x))) := by
  cases x with
  | geom g =>
    show objKeys (encodeGeometry g) = _ ∧ firstField (encodeGeometry g) = _
    cases g <;>
      first
      | (rw [encodeGeometry_geometryCollection]
         exact ⟨rfl, rfl⟩)
      | (rw [encodeGeometry]
         exact ⟨rfl, rfl⟩)
  | feature f => exact ⟨rfl, rfl⟩
  | featureCollection fs => exact ⟨rfl, rfl⟩

end Hyperspec
